import Mathlib

/-!
Shallow embedding of the lineage-propagation engine in `src/wot/ot/ancestors.py`
(class `Ancestors`).  Machine floats are modelled as exact rationals `ℚ`; the
entropy computation (`scipy.stats.entropy`, `np.exp`) is modelled over `ℝ`;
Python exceptions are modelled with `Except String`.  Line numbers in the doc
comments refer to `src/wot/ot/ancestors.py`.
-/

namespace Wot

/-- numpy dot product of two vectors (well-formed inputs have equal length;
a shape mismatch is a numpy error and never occurs on the paths modelled here). -/
def dotQ (a b : List ℚ) : ℚ := (List.zipWith (fun x y => x * y) a b).sum

/-- Matrix-vector product `M.dot(v)` for a row-major matrix: line 256 `tmap.x.dot(v)`. -/
def matVec (M : List (List ℚ)) (v : List ℚ) : List ℚ := M.map (fun row => dotQ row v)

/-- Number of columns of a row-major matrix (numpy `shape[1]` of a well-formed matrix). -/
def numCols (M : List (List ℚ)) : ℕ := (M.headD []).length

/-- Vector-matrix product `v.dot(M)`: line 258; entry `j` is the sum of `v i * M i j`. -/
def vecMat (v : List ℚ) (M : List (List ℚ)) : List ℚ :=
  (List.range (numCols M)).map (fun j => dotQ v (M.map (fun row => row.getD j 0)))

/-- The raw (pre-normalization) propagated vector of lines 255-258. -/
def rawStep (back : Bool) (M : List (List ℚ)) (v : List ℚ) : List ℚ :=
  if back then matVec M v else vecMat v M

/-- Lines 254-262: propagate one cell-set vector through the local map and
renormalize (`v /= v.sum()`).  When the pre-normalization sum is zero every
entry of the propagated vector is also zero (the inputs on this path are
non-negative), so the numpy division computes `0.0/0.0 = NaN` in every entry;
`scipy.stats.entropy` and `np.exp` then give NaN and line 262,
`int(np.ceil(entropy))`, raises `ValueError: cannot convert float NaN to
integer`, aborting the whole call.  That abort is modelled by the error case. -/
def propagateStep (back : Bool) (M : List (List ℚ)) (v : List ℚ) : Except String (List ℚ) :=
  let v1 := rawStep back M v
  if v1.sum = 0 then Except.error "ValueError: cannot convert float NaN to integer"
  else Except.ok (v1.map (fun x => x / v1.sum))

/-- pandas `Index.get_indexer_for(target)`: for each target label, its position in
`index` (indices are unique cell ids), or `-1` when absent. -/
def getIndexerFor (index target : List String) : List ℤ :=
  target.map (fun s => match index.findIdx? (fun t => t == s) with
    | some i => (i : ℤ)
    | none => -1)

/-- Python integer indexing: negative indices count from the end of the list. -/
def pyGet (l : List α) (i : ℤ) : Option α :=
  if 0 ≤ i then l.get? i.toNat
  else if (-i).toNat ≤ l.length then l.get? (l.length - (-i).toNat) else none

/-- numpy fancy indexing `xs[order]` and pandas `.iloc[order]`; raises
`IndexError` when an index is out of range. -/
def takeRows (xs : List α) (order : List ℤ) : Except String (List α) :=
  order.mapM (fun i => match pyGet xs i with
    | some r => Except.ok r
    | none => Except.error "IndexError")

/-- A wot.Dataset: a numeric matrix with row ids (cells) and column names (genes).
The code reads a column name for every column index of `x` (line 99), so in every
well-formed dataset `x` has `colNames.length` columns. -/
structure DS where
  rowIds : List String
  colNames : List String
  x : List (List ℚ)
deriving Repr, DecidableEq

/-- Lines 199-207: the expression-matrix alignment performed at each step.
The source computes `ds_order = tmap.<axis>_meta.index.get_indexer_for(unaligned_ds.row_meta.index)`
and then takes `unaligned_ds.x[ds_order]` and `unaligned_ds.row_meta.iloc[ds_order]`:
the indexer of the TABLE ids inside the MAP axis, applied back to the table itself. -/
def alignDS (tmapIds : List String) (uds : DS) : Except String DS := do
  let order := getIndexerFor tmapIds uds.rowIds
  let rows ← takeRows uds.x order
  let ids ← takeRows uds.rowIds order
  Except.ok { rowIds := ids, colNames := uds.colNames, x := rows }

/-- Modelled from the spec, section 4.2 (the Auxiliary Data Aligner contract, not
present as its own function in the source): align(table, target_ids) is a left
join returning exactly one row per target id, in target order, with a null
placeholder row for ids absent from the table.  Declared only to compare with
the source-translated `alignDS`. -/
def specAlign (targetIds : List String) (uds : DS) : List (Option (List ℚ)) :=
  targetIds.map (fun s => match uds.rowIds.findIdx? (fun t => t == s) with
    | some i => some (uds.x.getD i [])
    | none => none)

/-- A gene-set score table (`pd.read_table` result): row ids are cell ids,
columns are gene sets. -/
structure GSS where
  rowIds : List String
  colNames : List String
  x : List (List ℚ)
deriving Repr, DecidableEq

/-- A pandas DataFrame reindexed by a left join: rows follow the left index, and
labels missing from the right table yield all-NaN rows (entries `none`). -/
structure AlignedGSS where
  rows : List (List (Option ℚ))
  colNames : List String
deriving Repr, DecidableEq

/-- Lines 212, 214 and 237-238: `left_frame.align(unaligned_gene_set_scores,
join=left, axis=0)[1]`, a pandas left join on the row labels: one output row per
target id, in target order, an all-NaN row when the id is absent. -/
def alignGSS (targetIds : List String) (g : GSS) : AlignedGSS :=
  { rows := targetIds.map (fun s => match g.rowIds.findIdx? (fun t => t == s) with
      | some i => (g.x.getD i []).map some
      | none => List.replicate g.colNames.length none)
    colNames := g.colNames }

/-- One plot trace dict appended by `do_sampling` (lines 106-121 and 133-151),
keeping the semantically relevant fields: the timepoint (`name`), the plot type,
the direction color (`fillcolor`) and the sampled values column (`y`).  The
constant styling fields (opacity, line color, boxpoints) are omitted.  Note that
the trace dict records no cell-set name: the `key` computed from it at lines
100 and 127 is dead code. -/
structure Trace where
  name : ℚ
  ttype : String
  fillcolor : String
  y : List (Option ℚ)
deriving Repr, DecidableEq

/-- Row selection `xs[sampled_indices]` / `.iloc[sampled_indices]` (with
replacement), or the whole table when `sampled_indices is None` (lines 96, 124). -/
def selectRows (rows : List α) : Option (List ℕ) → Except String (List α)
  | none => Except.ok rows
  | some idxs => idxs.mapM (fun i => match rows.get? i with
      | some r => Except.ok r
      | none => Except.error "IndexError")

/-- Lines 93-151, `Ancestors.do_sampling`: emit one box trace per expression
column and one violin trace per gene-set column, at timepoint `t`, colored by
`color`, with the selected rows of the (aligned) tables as values. -/
def doSampling (t : ℚ) (sampledIndices : Option (List ℕ)) (_cellSetName : String)
    (gss : Option AlignedGSS) (ds : Option DS) (color : String) :
    Except String (List Trace) := do
  let dsTraces ← match ds with
    | none => Except.ok ([] : List Trace)
    | some d => do
        let values ← selectRows d.x sampledIndices
        Except.ok ((List.range d.colNames.length).map (fun j =>
          ({ name := t, ttype := "box", fillcolor := color,
             y := values.map (fun r => r.get? j) } : Trace)))
  let gssTraces ← match gss with
    | none => Except.ok ([] : List Trace)
    | some g => do
        let rows ← selectRows g.rows sampledIndices
        Except.ok ((List.range g.colNames.length).map (fun j =>
          ({ name := t, ttype := "violin", fillcolor := color,
             y := rows.map (fun r => (r.get? j).join) } : Trace)))
  Except.ok (dsTraces ++ gssTraces)

/-- One transport map of the chain: times t1 < t2, row ids (cells at t1),
column ids (cells at t2) and the coupling matrix. -/
structure TMap where
  t1 : ℚ
  t2 : ℚ
  rowIds : List String
  colIds : List String
  x : List (List ℚ)
deriving Repr, DecidableEq

instance : Inhabited TMap := ⟨⟨0, 0, [], [], []⟩⟩

/-- The cell-set indicator matrix: rows are cells (at the anchor time), columns
are named sets.  The code indexes a column name for every column of `x`
(lines 240, 271), so in every well-formed input `x` has `colNames.length`
columns and `n_cell_sets = x.shape[1] = colNames.length`. -/
structure CellSetDS where
  rowIds : List String
  colNames : List String
  x : List (List ℚ)
deriving Repr, DecidableEq

/-- One record appended to `pvecs` at line 261.  The source also stores
`entropy = np.exp(scipy.stats.entropy(v))`, a pure function of `v` modelled
separately by `expEntropy`/`sampleCount`. -/
structure PVec where
  v : List ℚ
  t : ℚ
deriving Repr, DecidableEq

/-- The value returned at line 276. -/
structure Output where
  traces : List Trace
  pvecs : List PVec
deriving Repr, DecidableEq

/-- The in-memory inputs of `Ancestors.compute` (line 154).  `samplingLoader`
records whether the optional `sampling_loader` argument is not None; the loader
function itself is never called by the body, so its value is irrelevant. -/
structure Input where
  cellSetDS : CellSetDS
  transportMaps : List TMap
  time : ℚ
  unalignedDS : Option DS
  unalignedGSS : Option GSS
  samplingLoader : Bool
deriving Repr, DecidableEq

/-- Line 176: the backward direction color. -/
def backColor : String := "#2c7bb6"

/-- Line 176: the forward direction color. -/
def forwardColor : String := "#d7191c"

/-- Line 241: the fixed anchor marker color. -/
def anchorColor : String := "#ffffbf"

/-- Line 220: ids of the cells whose membership value in set column `i` is positive. -/
def cellIdsInSet (cs : CellSetDS) (i : ℕ) : List String :=
  (List.zip cs.rowIds cs.x).filterMap (fun p => if p.2.getD i 0 > 0 then some p.1 else none)

/-- Lines 221-222: boolean membership of the axis ids in the set, as a 0/1 vector
(numpy booleans behave as 0/1 under `dot` and `sum`). -/
def membershipVec (axisIds : List String) (cellIds : List String) : List ℚ :=
  axisIds.map (fun s => if s ∈ cellIds then 1 else 0)

/-- Lines 243-244: restrict the cell-set matrix to the kept set columns. -/
def filterCellSets (cs : CellSetDS) (keep : List ℕ) : CellSetDS :=
  { rowIds := cs.rowIds
    colNames := keep.map (fun i => cs.colNames.getD i "")
    x := cs.x.map (fun row => keep.map (fun i => row.getD i 0)) }

/-- Accumulator of the initializer loop at lines 217-241. -/
structure InitResult where
  pvecArray : List (List ℚ)
  keep : List ℕ
  traces : List Trace
deriving Repr, DecidableEq

/-- Lines 217-241: the anchor initializer.  For each set, boolean membership over
the adjacent axis (columns when walking backward, rows when walking forward);
sets with zero members are dropped; on the backward walk each surviving set also
emits its anchor trace (color `anchorColor`) built directly from the set members
(`sampled_indices=None`), with the expression matrix gathered by
`unaligned_ds.row_meta.index.get_indexer_for(cell_ids_in_set)` (lines 232-235)
and the gene-set scores left-joined onto the member ids (lines 237-238). -/
def anchorTraces (input : Input) (back : Bool) (cs : CellSetDS) (i : ℕ) :
    Except String (List Trace) :=
  if back then do
    let cellIds := cellIdsInSet cs i
    let ds0 ← match input.unalignedDS with
      | none => Except.ok none
      | some uds => do
          let order := getIndexerFor uds.rowIds cellIds
          let rows ← takeRows uds.x order
          let ids ← takeRows uds.rowIds order
          Except.ok (some ({ rowIds := ids, colNames := uds.colNames, x := rows } : DS))
    let gs0 := input.unalignedGSS.map (fun g => alignGSS cellIds g)
    doSampling input.time none (cs.colNames.getD i "") gs0 ds0 anchorColor
  else Except.ok []

/-- Lines 217-244 proper: the per-set loop of the initializer (see the previous
doc comment). -/
def initCellSets (input : Input) (back : Bool) (tm : TMap) (cs : CellSetDS) (n : ℕ) :
    Except String InitResult :=
  (List.range n).foldlM (fun (acc : InitResult) i => do
    let membership := membershipVec (if back then tm.colIds else tm.rowIds) (cellIdsInSet cs i)
    if membership.sum > 0 then do
      let traces ← anchorTraces input back cs i
      Except.ok { pvecArray := acc.pvecArray ++ [membership], keep := acc.keep ++ [i],
                  traces := acc.traces ++ traces }
    else Except.ok acc) { pvecArray := [], keep := [], traces := [] }

/-- The mutable state threaded through the walk loop of lines 166-274. -/
structure ComputeState where
  traces : List Trace
  pvecs : List PVec
  cellSetDS : CellSetDS
  nCellSets : ℕ
  pvecArray : List (List ℚ)
deriving Repr, DecidableEq

/-- Lines 197-207 (align ds and tmap), with the column index of the loaded map
being None on the sampling-loader path (lines 181-187, where
wot.Dataset(None, pd.DataFrame(index=ids), None) has col_meta None). -/
def dsAlignStep (input : Input) (back : Bool) (tm : TMap) : Except String (Option DS) :=
  match input.unalignedDS with
  | none => Except.ok none
  | some uds =>
    if back then (alignDS tm.rowIds uds).map some
    else
      match (if input.samplingLoader then none else some tm.colIds : Option (List String)) with
      | some cids => (alignDS cids uds).map some
      | none => Except.error "AttributeError: NoneType object has no attribute index"

/-- Lines 208-214: align gene set scores and tmap. -/
def gssAlignStep (input : Input) (back : Bool) (tm : TMap) : Except String (Option AlignedGSS) :=
  match input.unalignedGSS with
  | none => Except.ok none
  | some g =>
    if back then Except.ok (some (alignGSS tm.rowIds g))
    else
      match (if input.samplingLoader then none else some tm.colIds : Option (List String)) with
      | some cids => Except.ok (some (alignGSS cids g))
      | none => Except.error "AttributeError: NoneType object has no attribute align"

/-- Lines 215-250: the anchor-initialization block, executed only at the
anchor-adjacent chain index.  Under a sampling loader the initializer proper is
skipped; either way line 245 refreshes n_cell_sets and lines 249-250 raise when
no set survives. -/
def anchorInitStep (input : Input) (back : Bool) (tm : TMap) (st : ComputeState) :
    Except String ComputeState := do
  let st ← if !input.samplingLoader then do
      let r ← initCellSets input back tm st.cellSetDS st.nCellSets
      Except.ok { st with traces := st.traces ++ r.traces,
                          cellSetDS := filterCellSets st.cellSetDS r.keep,
                          pvecArray := r.pvecArray }
    else Except.ok st
  -- Line 245: n_cell_sets = cell_set_ds.x.shape[1].
  let st := { st with nCellSets := st.cellSetDS.colNames.length }
  -- Lines 249-250.
  if st.nCellSets = 0 then Except.error "No cell sets"
  else Except.ok st

/-- Lines 252-273: the body of the per-cell-set loop for set index i.
The sampler argument abstracts lines 260-265, the entropy-sized random draw
v -> np.random.choice(len(v), int(np.ceil(np.exp(scipy.stats.entropy(v)))), p=v, replace=True);
its faithful definition over an explicit randomness stream is `sampleStep`.
When sampling_loader is not None, lines 253-265 are skipped entirely (they sit
under `if sampling_loader is None`), so the locals v and sampled_indices have
never been assigned and the call at line 270 raises at its reference to
sampled_indices. -/
def perSetBody (input : Input) (sampler : List ℚ → List ℕ) (back : Bool) (tm : TMap)
    (t : ℚ) (ds : Option DS) (gss : Option AlignedGSS)
    (p : ComputeState × List (List ℚ)) (i : ℕ) :
    Except String (ComputeState × List (List ℚ)) :=
  if input.samplingLoader then
    Except.error "UnboundLocalError: local variable sampled_indices referenced before assignment"
  else do
    let v0 := p.1.pvecArray.getD i []
    let v ← propagateStep back tm.x v0
    let st1 := { p.1 with pvecs := p.1.pvecs ++ [({ v := v, t := t } : PVec)] }
    let sampledIndices := sampler v
    let newTraces ← doSampling t (some sampledIndices)
      (st1.cellSetDS.colNames.getD i "") gss ds (if back then backColor else forwardColor)
    Except.ok ({ st1 with traces := st1.traces ++ newTraces }, p.2 ++ [v])

/-- Lines 177-274: the loop body for one transport_index of one direction. -/
def stepIteration (input : Input) (sampler : List ℚ → List ℕ) (back : Bool)
    (tIndex : ℕ) (transportIndex : ℕ) (st : ComputeState) : Except String ComputeState := do
  let tm := input.transportMaps.getD transportIndex default
  let t := if back then tm.t1 else tm.t2
  let ds ← dsAlignStep input back tm
  let gss ← gssAlignStep input back tm
  let st ← if transportIndex = tIndex then anchorInitStep input back tm st
    else Except.ok st
  -- Lines 251-274: per-cell-set propagation and sampling.
  let res ← (List.range st.nCellSets).foldlM (perSetBody input sampler back tm t ds gss) (st, [])
  Except.ok { res.1 with pvecArray := res.2 }

/-- Lines 160-164: the scan assigns on every match without breaking, so the LAST
matching index wins. -/
def lastIdxWhere (tms : List TMap) (p : TMap → Bool) : Option ℕ :=
  (List.range tms.length).foldl (fun acc i => if p (tms.getD i default) then some i else acc) none

/-- Line 161-162: t1_index. -/
def t1IndexOf (input : Input) : Option ℕ :=
  lastIdxWhere input.transportMaps (fun tm => tm.t1 == input.time)

/-- Line 163-164: t2_index. -/
def t2IndexOf (input : Input) : Option ℕ :=
  lastIdxWhere input.transportMaps (fun tm => tm.t2 == input.time)

/-- Lines 169-173: the (direction, anchor index, chain indices) of each walk.
Backward: `range(t2_index, -1, -1)`; forward: `range(t1_index, len(transport_maps))`. -/
def rangesOf (input : Input) : List (Bool × ℕ × List ℕ) :=
  (match t2IndexOf input with
   | some i => [(true, i, (List.range (i + 1)).reverse)]
   | none => []) ++
  (match t1IndexOf input with
   | some i => [(false, i, (List.range input.transportMaps.length).drop i)]
   | none => [])

/-- Lines 166-168: the state before the walks: empty traces and pvecs, the
given cell-set matrix, `n_cell_sets = cell_set_ds.x.shape[1]`. -/
def initState (input : Input) : ComputeState :=
  { traces := [], pvecs := [], cellSetDS := input.cellSetDS,
    nCellSets := input.cellSetDS.colNames.length, pvecArray := [] }

/-- Lines 153-276, `Ancestors.compute`.  When the anchor time is absent from the
chain both indices are None, `ranges` is empty, and the function returns the
empty traces and pvecs without any error. -/
def compute (input : Input) (sampler : List ℚ → List ℕ) : Except String Output := do
  let st ← (rangesOf input).foldlM (fun st r =>
      r.2.2.foldlM (fun st ti => stepIteration input sampler r.1 r.2.1 ti st) st)
    (initState input)
  Except.ok { traces := st.traces, pvecs := st.pvecs }

/-- Lines 80-87 of `from_cmd_line`: the loop assigns `time_index` only when some
map has `t2 == time` (first match, then break).  When no map matches, the guard
`if time_index is None` itself raises, because the local was never assigned; the
intended RuntimeError for a missing timepoint is unreachable on that path.  Note
that only `t2` is inspected. -/
def fromCmdLineTimeLookup (tms : List TMap) (time : ℚ) : Except String ℕ :=
  match tms.findIdx? (fun tm => tm.t2 == time) with
  | some i => Except.ok i
  | none => Except.error "UnboundLocalError: local variable time_index referenced before assignment"

/-- scipy natural-log Shannon entropy of an already-normalized vector:
the sum of negMulLog over the entries. -/
noncomputable def shannonEntropy (v : List ℝ) : ℝ := (v.map Real.negMulLog).sum

/-- scipy.stats.entropy(pk): pk is first normalized by its sum, then the
natural-log Shannon entropy is taken. -/
noncomputable def scipyEntropy (v : List ℝ) : ℝ := shannonEntropy (v.map (fun x => x / v.sum))

/-- Line 260: entropy = np.exp(ShannonEntropy(v)), the perplexity. -/
noncomputable def expEntropy (v : List ℝ) : ℝ := Real.exp (shannonEntropy v)

/-- The rational probability vectors of compute, viewed over ℝ. -/
def toReal (v : List ℚ) : List ℝ := v.map Rat.cast

/-- Lines 260-262: n_choose = int(np.ceil(np.exp(scipy.stats.entropy(v)))); the
exponential is positive, so the int truncation of np.ceil equals the natural
ceiling. -/
noncomputable def sampleCount (v : List ℚ) : ℕ := ⌈Real.exp (scipyEntropy (toReal v))⌉₊

/-- Inverse-CDF weighted draw of one index from the distribution `p`, given one
uniform draw `r` from [0,1): the first index whose cumulative probability
exceeds `r`. -/
def chooseIdx : List ℚ → ℚ → ℕ
  | [], _ => 0
  | [_], _ => 0
  | q :: rest, r => if r < q then 0 else chooseIdx rest (r - q) + 1

/-- Line 265: np.random.choice(len(v), n_choose, p=v, replace=True), over an
explicit randomness stream `rands` supplying one uniform draw per sample;
replacement means each draw uses its own independent random number. -/
noncomputable def sampleStep (v : List ℚ) (rands : ℕ → ℚ) : List ℕ :=
  (List.range (sampleCount v)).map (fun j => chooseIdx v (rands j))

/-! Concrete example inputs used by the counterexample, evaluation and witness
theorems below. -/

/-- A degenerate instance of the random draw (an empty draw every time), used to
instantiate the sampler oracle in closed evaluations. -/
def emptySampler : List ℚ → List ℕ := fun _ => []

/-- A transport map from time 0 to time 1 coupling a0 to b0 and nothing else. -/
def map01 : TMap :=
  { t1 := 0, t2 := 1, rowIds := ["a0", "a1"], colIds := ["b0", "b1"], x := [[1, 0], [0, 0]] }

/-- A transport map from time 1 to time 2 coupling b0 to c0 and nothing else. -/
def map12 : TMap :=
  { t1 := 1, t2 := 2, rowIds := ["b0", "b1"], colIds := ["c0", "c1"], x := [[1, 0], [0, 0]] }

/-- A transport map from time 0 to time 1 whose only row has no mass on the
first destination cell: the backward image of a set supported on b0 is zero. -/
def map01z : TMap :=
  { t1 := 0, t2 := 1, rowIds := ["a0"], colIds := ["b0", "b1"], x := [[0, 1]] }

/-- One cell set named A containing the single cell b0 (a cell at time 1). -/
def csA : CellSetDS := { rowIds := ["b0"], colNames := ["A"], x := [[1]] }

/-- A gene-set score table with one column, covering a0 and b0 and c1 only. -/
def gssB : GSS := { rowIds := ["a0", "b0", "c1"], colNames := ["S1"], x := [[3], [4], [5]] }

/-- The section 8 scenario input: chain [map(0,1), map(1,2)], anchor time 1,
one cell set with members at time 1, no auxiliary tables. -/
def input9c : Input :=
  { cellSetDS := csA, transportMaps := [map01, map12], time := 1,
    unalignedDS := none, unalignedGSS := none, samplingLoader := false }

/-- The section 8 scenario input with a one-column gene-set score table. -/
def input9g : Input := { input9c with unalignedGSS := some gssB }

/-- An input whose anchor time 5 appears in no transport map. -/
def input4 : Input :=
  { cellSetDS := csA, transportMaps := [map01], time := 5,
    unalignedDS := none, unalignedGSS := none, samplingLoader := false }

/-- An input whose only cell set maps to a zero-probability region backward. -/
def input2 : Input :=
  { cellSetDS := csA, transportMaps := [map01z], time := 1,
    unalignedDS := none, unalignedGSS := none, samplingLoader := false }

/-- An input whose cell-set matrix has an all-zero column. -/
def input5 : Input :=
  { cellSetDS := { rowIds := ["b0"], colNames := ["A"], x := [[0]] },
    transportMaps := [map01], time := 1,
    unalignedDS := none, unalignedGSS := none, samplingLoader := false }

/-- A sampling-loader input with a forward-only anchor and a gene-set table. -/
def input10c : Input :=
  { cellSetDS := { rowIds := ["a0"], colNames := ["A"], x := [[1]] },
    transportMaps := [map01], time := 0,
    unalignedDS := none, unalignedGSS := some gssB, samplingLoader := true }

/-- A sampling-loader input with a backward anchor and no auxiliary tables. -/
def input10a : Input :=
  { cellSetDS := csA, transportMaps := [map01], time := 1,
    unalignedDS := none, unalignedGSS := none, samplingLoader := true }

/-! General helper lemmas. -/

@[simp] lemma ok_bind {α β : Type} (a : α) (f : α → Except String β) :
    (Except.ok a : Except String α) >>= f = f a := rfl

@[simp] lemma error_bind {α β : Type} (e : String) (f : α → Except String β) :
    (Except.error e : Except String α) >>= f = Except.error e := rfl

lemma dotQ_nil_left (b : List ℚ) : dotQ [] b = 0 := by simp [dotQ]

lemma dotQ_nil_right (a : List ℚ) : dotQ a [] = 0 := by
  cases a <;> simp [dotQ]

lemma dotQ_cons (x y : ℚ) (a b : List ℚ) : dotQ (x :: a) (y :: b) = x * y + dotQ a b := by
  simp [dotQ]

lemma dotQ_nonneg : ∀ (a b : List ℚ), (∀ x ∈ a, 0 ≤ x) → (∀ x ∈ b, 0 ≤ x) → 0 ≤ dotQ a b
  | [], b, _, _ => by simp [dotQ_nil_left]
  | _ :: _, [], _, _ => by simp [dotQ_nil_right]
  | x :: a, y :: b, ha, hb => by
    rw [dotQ_cons]
    have h1 : 0 ≤ x * y := mul_nonneg (ha x (by simp)) (hb y (by simp))
    have h2 : 0 ≤ dotQ a b :=
      dotQ_nonneg a b (fun z hz => ha z (by simp [hz])) (fun z hz => hb z (by simp [hz]))
    linarith

lemma getD_zero_nonneg {l : List ℚ} (h : ∀ x ∈ l, 0 ≤ x) (j : ℕ) : 0 ≤ l.getD j 0 := by
  rcases h' : l[j]? with _ | x
  · simp [List.getD_eq_getElem?_getD, h']
  · rw [List.getD_eq_getElem?_getD, h']
    exact h x (List.getElem?_mem h')

lemma rawStep_true (M : List (List ℚ)) (v : List ℚ) : rawStep true M v = matVec M v := rfl

lemma rawStep_false (M : List (List ℚ)) (v : List ℚ) : rawStep false M v = vecMat v M := rfl

lemma rawStep_nonneg (back : Bool) {M : List (List ℚ)} {v : List ℚ}
    (hM : ∀ row ∈ M, ∀ x ∈ row, 0 ≤ x) (hv : ∀ x ∈ v, 0 ≤ x) :
    ∀ x ∈ rawStep back M v, 0 ≤ x := by
  intro x hx
  cases back with
  | true =>
    rw [rawStep_true] at hx
    simp only [matVec, List.mem_map] at hx
    obtain ⟨row, hrow, rfl⟩ := hx
    exact dotQ_nonneg _ _ (hM row hrow) hv
  | false =>
    rw [rawStep_false] at hx
    simp only [vecMat, List.mem_map] at hx
    obtain ⟨j, _, rfl⟩ := hx
    refine dotQ_nonneg _ _ hv ?_
    intro z hz
    simp only [List.mem_map] at hz
    obtain ⟨row, hrow, rfl⟩ := hz
    exact getD_zero_nonneg (hM row hrow) j

lemma sum_map_div (l : List ℚ) (c : ℚ) : (l.map (fun x => x / c)).sum = l.sum / c := by
  induction l with
  | nil => simp
  | cons x l ih => simp [ih, add_div]

/-- C1: after the anchor initialization, each propagation step computes the
backward product M.v or the forward product v.M and renormalizes; when the
pre-normalization sum is positive the recorded vector sums to 1 and is
entrywise non-negative. -/
theorem propagate_step_normalizes (back : Bool) (M : List (List ℚ)) (v : List ℚ)
    (hM : ∀ row ∈ M, ∀ x ∈ row, 0 ≤ x) (hv : ∀ x ∈ v, 0 ≤ x)
    (hpos : 0 < (rawStep back M v).sum) :
    propagateStep back M v
      = Except.ok ((rawStep back M v).map (fun x => x / (rawStep back M v).sum)) ∧
    ((rawStep back M v).map (fun x => x / (rawStep back M v).sum)).sum = 1 ∧
    (∀ x ∈ (rawStep back M v).map (fun x => x / (rawStep back M v).sum), 0 ≤ x) := by
  refine ⟨?_, ?_, ?_⟩
  · simp only [propagateStep]
    rw [if_neg (ne_of_gt hpos)]
  · rw [sum_map_div, div_self (ne_of_gt hpos)]
  · intro x hx
    simp only [List.mem_map] at hx
    obtain ⟨y, hy, rfl⟩ := hx
    exact div_nonneg (rawStep_nonneg back hM hv y hy) (le_of_lt hpos)

/-- Witness for C1: a concrete backward step through a positive 2x2 map. -/
theorem propagate_step_normalizes_witness :
    propagateStep true [[1, 1], [1, 1]] [1, 0]
      = Except.ok ((rawStep true [[1, 1], [1, 1]] [1, 0]).map
          (fun x => x / (rawStep true [[1, 1], [1, 1]] [1, 0]).sum)) ∧
    ((rawStep true [[1, 1], [1, 1]] [1, 0]).map
        (fun x => x / (rawStep true [[1, 1], [1, 1]] [1, 0]).sum)).sum = 1 ∧
    (∀ x ∈ (rawStep true [[1, 1], [1, 1]] [1, 0]).map
        (fun x => x / (rawStep true [[1, 1], [1, 1]] [1, 0]).sum), 0 ≤ x) :=
  propagate_step_normalizes true [[1, 1], [1, 1]] [1, 0]
    (by norm_num) (by norm_num)
    (by norm_num [rawStep_true, matVec, dotQ])

lemma dotQ_zero_right : ∀ (a b : List ℚ), (∀ x ∈ b, x = 0) → dotQ a b = 0
  | [], _, _ => by simp [dotQ_nil_left]
  | _ :: _, [], _ => by simp [dotQ_nil_right]
  | x :: a, y :: b, hb => by
    rw [dotQ_cons, hb y (by simp), dotQ_zero_right a b (fun z hz => hb z (by simp [hz]))]
    ring

lemma dotQ_zero_left : ∀ (a b : List ℚ), (∀ x ∈ a, x = 0) → dotQ a b = 0
  | [], _, _ => by simp [dotQ_nil_left]
  | _ :: _, [], _ => by simp [dotQ_nil_right]
  | x :: a, y :: b, ha => by
    rw [dotQ_cons, ha x (by simp), dotQ_zero_left a b (fun z hz => ha z (by simp [hz]))]
    ring

lemma rawStep_zero (back : Bool) (M : List (List ℚ)) {v : List ℚ}
    (hv : ∀ x ∈ v, x = 0) : ∀ x ∈ rawStep back M v, x = 0 := by
  intro x hx
  cases back with
  | true =>
    rw [rawStep_true] at hx
    simp only [matVec, List.mem_map] at hx
    obtain ⟨row, _, rfl⟩ := hx
    exact dotQ_zero_right _ _ hv
  | false =>
    rw [rawStep_false] at hx
    simp only [vecMat, List.mem_map] at hx
    obtain ⟨j, _, rfl⟩ := hx
    exact dotQ_zero_left _ _ hv

/-- C8: a cell-set vector that has become the zero vector stays zero under the
raw linear propagation of every later step (backward or forward, any maps), so
a vanished set can never reappear with positive mass later in the same walk. -/
theorem zero_vector_stays_zero (back : Bool) (M : List (List ℚ)) (v : List ℚ)
    (hv : ∀ x ∈ v, x = 0) :
    (∀ x ∈ rawStep back M v, x = 0) ∧
    (∀ chain : List (Bool × List (List ℚ)),
      ∀ x ∈ chain.foldl (fun w bm => rawStep bm.1 bm.2 w) v, x = 0) := by
  refine ⟨rawStep_zero back M hv, ?_⟩
  intro chain
  induction chain generalizing v with
  | nil => simpa using hv
  | cons bm rest ih =>
    intro x hx
    exact ih _ (rawStep_zero bm.1 bm.2 hv) x hx

/-- Witness for C8: the zero vector through a concrete map. -/
theorem zero_vector_stays_zero_witness :
    (∀ x ∈ rawStep true [[1, 2], [3, 4]] [0, 0], x = 0) ∧
    (∀ chain : List (Bool × List (List ℚ)),
      ∀ x ∈ chain.foldl (fun w bm => rawStep bm.1 bm.2 w) [0, 0], x = 0) :=
  zero_vector_stays_zero true [[1, 2], [3, 4]] [0, 0] (by decide)

/-- C2 (code_bug evaluation): on an input whose only cell set propagates to a
zero-probability region, compute does not record the set as vanished and
continue: the division `v /= v.sum()` of line 259 computes 0/0 = NaN in every
entry and line 262 then raises, aborting the whole call with no output at all.
The input: a single backward map sending all mass away from the cell b0 of set
A, so the propagated vector is [0] with sum 0. -/
theorem degenerate_sum_aborts_run :
    compute input2 emptySampler
      = Except.error "ValueError: cannot convert float NaN to integer" ∧
    rawStep true map01z.x (membershipVec map01z.colIds ["b0"]) = [0] := by
  constructor
  · simp [compute, input2, initState, rangesOf, t1IndexOf, t2IndexOf, lastIdxWhere, map01z,
      csA, emptySampler, stepIteration, dsAlignStep, gssAlignStep, anchorInitStep, perSetBody,
      initCellSets, anchorTraces, doSampling, cellIdsInSet, membershipVec, filterCellSets,
      propagateStep, rawStep,
      matVec, vecMat, dotQ, numCols, doSampling, selectRows, List.range_succ]
  · simp [rawStep_true, matVec, dotQ, map01z, membershipVec]

/-- C3 (code_bug evaluation): the expression-matrix alignment of lines 199-207
is not the left join the spec describes.  With target axis ids [a, b] and a
table holding only id a, the code returns a table with 1 row (the number of
TABLE rows), not len(target_ids) = 2 rows, while the spec aligner returns 2
rows with a null placeholder for b.  The gene-set-score alignment of lines
212/214 does satisfy the left-join contract on the same shapes. -/
theorem alignDS_is_not_left_join :
    alignDS ["a", "b"] { rowIds := ["a"], colNames := ["g"], x := [[5]] }
      = Except.ok { rowIds := ["a"], colNames := ["g"], x := [[5]] } ∧
    (alignDS ["a", "b"] { rowIds := ["a"], colNames := ["g"], x := [[5]] }).map
        (fun d => d.x.length) = Except.ok 1 ∧
    specAlign ["a", "b"] { rowIds := ["a"], colNames := ["g"], x := [[5]] }
      = [some [5], none] ∧
    (specAlign ["a", "b"] { rowIds := ["a"], colNames := ["g"], x := [[5]] }).length = 2 ∧
    (alignGSS ["a", "b"] { rowIds := ["a"], colNames := ["g"], x := [[5]] }).rows
      = [[some 5], [none]] := by
  refine ⟨rfl, rfl, rfl, rfl, rfl⟩

lemma foldl_if_none {q : ℕ → Bool} :
    ∀ l : List ℕ, (∀ i ∈ l, q i = false) →
      l.foldl (fun acc i => if q i then some i else acc) none = none := by
  intro l
  induction l with
  | nil => intro _; rfl
  | cons j l ih =>
    intro h
    rw [List.foldl_cons, if_neg]
    · exact ih fun i hi => h i (List.mem_cons_of_mem j hi)
    · simp [h j (List.mem_cons_self j l)]

lemma getD_mem_of_lt {tms : List TMap} {i : ℕ} (hi : i < tms.length) :
    tms.getD i default ∈ tms := by
  rw [List.getD_eq_getElem?_getD, List.getElem?_eq_getElem hi]
  exact List.getElem_mem hi

lemma lastIdxWhere_eq_none {tms : List TMap} {p : TMap → Bool}
    (h : ∀ tm ∈ tms, p tm = false) : lastIdxWhere tms p = none := by
  unfold lastIdxWhere
  exact foldl_if_none _ (fun i hi => h _ (getD_mem_of_lt (List.mem_range.mp hi)))

/-- C4 (amended): when the anchor time is absent from every map of the chain,
compute does not fail: both direction indices stay None, no walk is entered, and
the call returns normally with empty traces and empty pvecs.  The only absent-
timepoint check lives in the command-line wrapper, inspects only t2, and aborts
via an unbound-local reference rather than its intended RuntimeError. -/
theorem missing_anchor_returns_empty (input : Input) (sampler : List ℚ → List ℕ)
    (h : ∀ tm ∈ input.transportMaps, tm.t1 ≠ input.time ∧ tm.t2 ≠ input.time) :
    compute input sampler = Except.ok { traces := [], pvecs := [] } ∧
    fromCmdLineTimeLookup input.transportMaps input.time
      = Except.error
          "UnboundLocalError: local variable time_index referenced before assignment" := by
  have h1 : t1IndexOf input = none :=
    lastIdxWhere_eq_none (fun tm htm => beq_eq_false_iff_ne.mpr (h tm htm).1)
  have h2 : t2IndexOf input = none :=
    lastIdxWhere_eq_none (fun tm htm => beq_eq_false_iff_ne.mpr (h tm htm).2)
  constructor
  · simp [compute, rangesOf, initState, h1, h2]
  · unfold fromCmdLineTimeLookup
    rw [List.findIdx?_eq_none_iff.mpr (fun tm htm => beq_eq_false_iff_ne.mpr (h tm htm).2)]

/-- Witness for C4 at a concrete input: chain [map(0,1)], anchor time 5. -/
theorem missing_anchor_returns_empty_witness :
    (∀ tm ∈ input4.transportMaps, tm.t1 ≠ input4.time ∧ tm.t2 ≠ input4.time) ∧
    (compute input4 emptySampler = Except.ok { traces := [], pvecs := [] } ∧
     fromCmdLineTimeLookup input4.transportMaps input4.time
       = Except.error
           "UnboundLocalError: local variable time_index referenced before assignment") :=
  ⟨by decide, missing_anchor_returns_empty input4 emptySampler (by decide)⟩

/-- C4 (counterexample to the claim as stated): on the concrete input whose
anchor time 5 is in no map, compute returns OK (an empty result), i.e. it does
not fail with any timepoint-not-found condition. -/
theorem missing_anchor_does_not_fail :
    compute input4 emptySampler = Except.ok { traces := [], pvecs := [] } := rfl

lemma foldl_if_some_mem {q : ℕ → Bool} :
    ∀ (l : List ℕ) (acc : Option ℕ) (j : ℕ),
      l.foldl (fun acc i => if q i then some i else acc) acc = some j →
      acc = some j ∨ j ∈ l := by
  intro l
  induction l with
  | nil => intro acc j h; exact Or.inl h
  | cons x l ih =>
    intro acc j h
    rw [List.foldl_cons] at h
    rcases ih _ j h with h' | h'
    · by_cases hq : q x
      · rw [if_pos hq] at h'
        cases h'
        exact Or.inr (List.mem_cons_self x l)
      · rw [if_neg hq] at h'
        exact Or.inl h'
    · exact Or.inr (List.mem_cons_of_mem x h')

lemma lastIdxWhere_lt {tms : List TMap} {p : TMap → Bool} {j : ℕ}
    (h : lastIdxWhere tms p = some j) : j < tms.length := by
  unfold lastIdxWhere at h
  rcases foldl_if_some_mem _ none j h with h' | h'
  · cases h'
  · exact List.mem_range.mp h'

lemma rangesOf_head_back {input : Input} {j : ℕ} (h : t2IndexOf input = some j) :
    ∃ idxs rest, rangesOf input = (true, j, j :: idxs) :: rest := by
  unfold rangesOf
  rw [h]
  cases h1 : t1IndexOf input with
  | none =>
    exact ⟨(List.range j).reverse, [], by simp [List.range_succ]⟩
  | some i =>
    exact ⟨(List.range j).reverse,
      [(false, i, (List.range input.transportMaps.length).drop i)],
      by simp [List.range_succ]⟩

lemma rangesOf_head_forward {input : Input} {j : ℕ} (h2 : t2IndexOf input = none)
    (h1 : t1IndexOf input = some j) :
    ∃ idxs, rangesOf input = [(false, j, j :: idxs)] := by
  have hj : j < input.transportMaps.length := lastIdxWhere_lt h1
  have hj2 : j < (List.range input.transportMaps.length).length := by simpa using hj
  refine ⟨(List.range input.transportMaps.length).drop (j + 1), ?_⟩
  unfold rangesOf
  rw [h2, h1]
  simp only [List.nil_append]
  rw [List.drop_eq_getElem_cons hj2, List.getElem_range]

lemma compute_error_of_first {input : Input} {sampler : List ℚ → List ℕ} {b : Bool}
    {j : ℕ} {idxs : List ℕ} {rest : List (Bool × ℕ × List ℕ)} {e : String}
    (hr : rangesOf input = (b, j, j :: idxs) :: rest)
    (he : stepIteration input sampler b j j (initState input) = Except.error e) :
    compute input sampler = Except.error e := by
  unfold compute
  rw [hr]
  rw [List.foldlM_cons]
  show (((j :: idxs).foldlM _ (initState input)) >>= _) >>= _ = _
  rw [List.foldlM_cons, he, error_bind, error_bind, error_bind]

lemma foldlM_fixed {α β : Type} (f : β → α → Except String β) (b : β) :
    ∀ l : List α, (∀ a ∈ l, f b a = Except.ok b) → l.foldlM f b = Except.ok b := by
  intro l
  induction l with
  | nil => intro _; rfl
  | cons x l ih =>
    intro h
    rw [List.foldlM_cons, h x (List.mem_cons_self x l), ok_bind]
    exact ih fun a ha => h a (List.mem_cons_of_mem x ha)

lemma initCellSets_all_zero {input : Input} {back : Bool} {tm : TMap} {cs : CellSetDS} {n : ℕ}
    (hmem : ∀ i, (membershipVec (if back then tm.colIds else tm.rowIds)
      (cellIdsInSet cs i)).sum = 0) :
    initCellSets input back tm cs n = Except.ok { pvecArray := [], keep := [], traces := [] } := by
  unfold initCellSets
  apply foldlM_fixed
  intro i _
  simp only
  rw [if_neg]
  rw [hmem i]
  exact lt_irrefl 0

lemma anchorInitStep_all_zero {input : Input} {back : Bool} {tm : TMap} {st : ComputeState}
    (hload : input.samplingLoader = false)
    (hmem : ∀ i, (membershipVec (if back then tm.colIds else tm.rowIds)
      (cellIdsInSet st.cellSetDS i)).sum = 0) :
    anchorInitStep input back tm st = Except.error "No cell sets" := by
  simp [anchorInitStep, hload, initCellSets_all_zero hmem, filterCellSets]

lemma stepIteration_anchor_of_ok {input : Input} {sampler : List ℚ → List ℕ} {back : Bool}
    {j : ℕ} {st : ComputeState} {ds : Option DS} {gss : Option AlignedGSS}
    (hds : dsAlignStep input back (input.transportMaps.getD j default) = Except.ok ds)
    (hgss : gssAlignStep input back (input.transportMaps.getD j default) = Except.ok gss) :
    stepIteration input sampler back j j st
      = (anchorInitStep input back (input.transportMaps.getD j default) st >>= fun st2 =>
          (List.range st2.nCellSets).foldlM
            (perSetBody input sampler back (input.transportMaps.getD j default)
              (if back then (input.transportMaps.getD j default).t1
               else (input.transportMaps.getD j default).t2) ds gss) (st2, []) >>=
          fun res => Except.ok { res.1 with pvecArray := res.2 }) := by
  simp only [stepIteration, hds, hgss, ok_bind, eq_self_iff_true, if_true, ite_true]

lemma foldlM_head_error {α β : Type} {f : β → α → Except String β} {b : β} {x : α}
    {l : List α} {e : String} (h : f b x = Except.error e) :
    (x :: l).foldlM f b = Except.error e := by
  rw [List.foldlM_cons, h, error_bind]

lemma range_cons_of_ne_zero {n : ℕ} (h : n ≠ 0) :
    List.range n = 0 :: List.map Nat.succ (List.range (n - 1)) := by
  obtain ⟨k, rfl⟩ : ∃ k, n = k + 1 := ⟨n - 1, (Nat.succ_pred_eq_of_pos (Nat.pos_of_ne_zero h)).symm⟩
  rw [List.range_succ_eq_map]
  rfl

lemma stepIteration_anchor_unbound {input : Input} {sampler : List ℚ → List ℕ} {back : Bool}
    {j : ℕ} {st : ComputeState} {ds : Option DS} {gss : Option AlignedGSS}
    (hds : dsAlignStep input back (input.transportMaps.getD j default) = Except.ok ds)
    (hgss : gssAlignStep input back (input.transportMaps.getD j default) = Except.ok gss)
    (hload : input.samplingLoader = true)
    (hN : st.cellSetDS.colNames.length ≠ 0) :
    stepIteration input sampler back j j st
      = Except.error
          "UnboundLocalError: local variable sampled_indices referenced before assignment" := by
  rw [stepIteration_anchor_of_ok hds hgss]
  have ha : anchorInitStep input back (input.transportMaps.getD j default) st
      = Except.ok { st with nCellSets := st.cellSetDS.colNames.length } := by
    have hN2 : st.cellSetDS.colNames ≠ [] := fun h => hN (by rw [h]; rfl)
    simp [anchorInitStep, hload, hN2]
  rw [ha, ok_bind]
  have hr : List.range ({ st with nCellSets := st.cellSetDS.colNames.length }
      : ComputeState).nCellSets = 0 :: List.map Nat.succ
        (List.range (st.cellSetDS.colNames.length - 1)) := range_cons_of_ne_zero hN
  rw [hr]
  have hb : perSetBody input sampler back (input.transportMaps.getD j default)
      (if back then (input.transportMaps.getD j default).t1
       else (input.transportMaps.getD j default).t2) ds gss
      (({ st with nCellSets := st.cellSetDS.colNames.length } : ComputeState), []) 0
      = Except.error
          "UnboundLocalError: local variable sampled_indices referenced before assignment" := by
    simp [perSetBody, hload]
  rw [foldlM_head_error hb, error_bind]

lemma stepIteration_anchor_error {input : Input} {sampler : List ℚ → List ℕ} {back : Bool}
    {j : ℕ} {st : ComputeState}
    (hmem : ∀ i, (membershipVec
      (if back then (input.transportMaps.getD j default).colIds
       else (input.transportMaps.getD j default).rowIds)
      (cellIdsInSet st.cellSetDS i)).sum = 0) :
    ∃ e, stepIteration input sampler back j j st = Except.error e := by
  cases hds : dsAlignStep input back (input.transportMaps.getD j default) with
  | error e => exact ⟨e, by simp only [stepIteration, hds, error_bind]⟩
  | ok ds =>
    cases hgss : gssAlignStep input back (input.transportMaps.getD j default) with
    | error e => exact ⟨e, by simp only [stepIteration, hds, ok_bind, hgss, error_bind]⟩
    | ok gss =>
      by_cases hload : input.samplingLoader
      · by_cases hN : st.cellSetDS.colNames.length = 0
        · refine ⟨"No cell sets", ?_⟩
          rw [stepIteration_anchor_of_ok hds hgss]
          have ha : anchorInitStep input back (input.transportMaps.getD j default) st
              = Except.error "No cell sets" := by
            simp [anchorInitStep, hload, hN, List.length_eq_zero.mp hN]
          rw [ha, error_bind]
        · exact ⟨_, stepIteration_anchor_unbound hds hgss hload hN⟩
      · refine ⟨"No cell sets", ?_⟩
        rw [stepIteration_anchor_of_ok hds hgss]
        have ha : anchorInitStep input back (input.transportMaps.getD j default) st
            = Except.error "No cell sets" :=
          anchorInitStep_all_zero (by simpa using hload) hmem
        rw [ha, error_bind]

lemma bind_ok_inv {α β : Type} {m : Except String α} {f : α → Except String β} {b : β}
    (h : m >>= f = Except.ok b) : ∃ a, m = Except.ok a ∧ f a = Except.ok b := by
  cases m with
  | error e => rw [error_bind] at h; cases h
  | ok a => exact ⟨a, rfl, by rw [ok_bind] at h; exact h⟩

lemma foldlM_ok_invariant {α β : Type} (f : β → α → Except String β) (P : β → Prop) :
    ∀ (l : List α) (b r : β), l.foldlM f b = Except.ok r →
      (∀ acc a acc2, a ∈ l → f acc a = Except.ok acc2 → P acc → P acc2) → P b → P r := by
  intro l
  induction l with
  | nil =>
    intro b r h _ hb
    rw [List.foldlM_nil] at h
    cases h
    exact hb
  | cons x l ih =>
    intro b r h hstep hb
    rw [List.foldlM_cons] at h
    cases hf : f b x with
    | error e =>
      rw [hf, error_bind] at h
      cases h
    | ok b2 =>
      rw [hf, ok_bind] at h
      exact ih b2 r h (fun acc a acc2 ha => hstep acc a acc2 (List.mem_cons_of_mem x ha))
        (hstep b x b2 (List.mem_cons_self x l) hf hb)

/-- C5: when every cell set has zero members on the transport-map axes at the
anchor (for example an all-zero cell-set matrix), compute fails fatally: an
error and no output, before any propagation step has produced a vector.
Moreover the initializer never keeps a set whose axis membership is zero, so
such a set is excluded from the walk permanently (the filtered cell-set matrix
of lines 243-244 replaces the original for the whole remaining run). -/
theorem empty_cell_sets_abort (input : Input) (sampler : List ℚ → List ℕ)
    (hanchor : t1IndexOf input ≠ none ∨ t2IndexOf input ≠ none)
    (hmem : ∀ (b : Bool) (tm : TMap), tm ∈ input.transportMaps → ∀ i : ℕ,
      (membershipVec (if b then tm.colIds else tm.rowIds)
        (cellIdsInSet input.cellSetDS i)).sum = 0) :
    (∃ e, compute input sampler = Except.error e) ∧
    (∀ (back : Bool) (tm : TMap) (cs : CellSetDS) (n i : ℕ) (r : InitResult),
      initCellSets input back tm cs n = Except.ok r →
      (membershipVec (if back then tm.colIds else tm.rowIds) (cellIdsInSet cs i)).sum = 0 →
      i ∉ r.keep) := by
  constructor
  · cases h2 : t2IndexOf input with
    | some j =>
      obtain ⟨idxs, rest, hr⟩ := rangesOf_head_back h2
      have hj : j < input.transportMaps.length := lastIdxWhere_lt h2
      obtain ⟨e, he⟩ := @stepIteration_anchor_error input sampler true j (initState input)
        (hmem true _ (getD_mem_of_lt hj))
      exact ⟨e, compute_error_of_first hr he⟩
    | none =>
      cases h1 : t1IndexOf input with
      | none =>
        rcases hanchor with h | h
        · exact absurd h1 h
        · exact absurd h2 h
      | some j =>
        obtain ⟨idxs, hr⟩ := rangesOf_head_forward h2 h1
        have hj : j < input.transportMaps.length := lastIdxWhere_lt h1
        obtain ⟨e, he⟩ := @stepIteration_anchor_error input sampler false j (initState input)
          (hmem false _ (getD_mem_of_lt hj))
        exact ⟨e, compute_error_of_first hr he⟩
  · intro back tm cs n i r hinit hzero
    unfold initCellSets at hinit
    refine foldlM_ok_invariant _ (fun acc => i ∉ acc.keep) _ _ _ hinit ?_ (by simp)
    intro acc a acc2 _ hf hP
    simp only at hf
    by_cases hpos : (membershipVec (if back then tm.colIds else tm.rowIds)
        (cellIdsInSet cs a)).sum > 0
    · rw [if_pos hpos] at hf
      obtain ⟨tr, -, hcont⟩ := bind_ok_inv hf
      cases hcont
      simp only [List.mem_append, List.mem_singleton]
      rintro (h | rfl)
      · exact hP h
      · rw [hzero] at hpos
        exact lt_irrefl 0 hpos
    · rw [if_neg hpos] at hf
      cases hf
      exact hP

/-- Witness for C5 at the concrete all-zero-column input. -/
theorem empty_cell_sets_abort_witness :
    (∃ e, compute input5 emptySampler = Except.error e) ∧
    (∀ (back : Bool) (tm : TMap) (cs : CellSetDS) (n i : ℕ) (r : InitResult),
      initCellSets input5 back tm cs n = Except.ok r →
      (membershipVec (if back then tm.colIds else tm.rowIds) (cellIdsInSet cs i)).sum = 0 →
      i ∉ r.keep) := by
  refine empty_cell_sets_abort input5 emptySampler (Or.inr (by decide)) ?_
  intro b tm _ i
  have hid : cellIdsInSet input5.cellSetDS i = [] := by
    have h0 : ∀ j : ℕ, ([(0 : ℚ)].getD j 0) = 0 := by
      intro j
      cases j <;> rfl
    simp [cellIdsInSet, input5, h0]
  rw [hid]
  have hz : ∀ ids : List String, (membershipVec ids []).sum = 0 := by
    intro ids
    induction ids with
    | nil => rfl
    | cons s ids ih => simp [membershipVec]
  exact hz _

lemma stepIteration_loader_error (input : Input) (sampler : List ℚ → List ℕ)
    (back : Bool) (j : ℕ) (st : ComputeState)
    (hload : input.samplingLoader = true)
    (hN : st.cellSetDS.colNames.length ≠ 0) :
    ∃ e, stepIteration input sampler back j j st = Except.error e := by
  cases hds : dsAlignStep input back (input.transportMaps.getD j default) with
  | error e => exact ⟨e, by simp only [stepIteration, hds, error_bind]⟩
  | ok ds =>
    cases hgss : gssAlignStep input back (input.transportMaps.getD j default) with
    | error e => exact ⟨e, by simp only [stepIteration, hds, ok_bind, hgss, error_bind]⟩
    | ok gss => exact ⟨_, stepIteration_anchor_unbound hds hgss hload hN⟩

/-- C10 (amended): with a non-None sampling_loader, an anchor time present in
the chain and at least one cell set, compute never completes: it always fails
with some error, whatever auxiliary tables are supplied.  When no auxiliary
table is supplied, the failure is exactly the unbound-variable error on
sampled_indices at the first per-cell-set sampling step, because lines 253-265
(which assign v and sampled_indices) are skipped on the loader path and line
270 references the never-assigned local.  When an auxiliary table is supplied,
alignment against the loader-built map can fail first instead (for example the
AttributeError of the counterexample theorem, on the None column index of a
forward walk), still before any sampling step completes. -/
theorem sampling_loader_never_completes (input : Input) (sampler : List ℚ → List ℕ)
    (hload : input.samplingLoader = true)
    (hanchor : t1IndexOf input ≠ none ∨ t2IndexOf input ≠ none)
    (hn : input.cellSetDS.colNames.length ≠ 0) :
    (∃ e, compute input sampler = Except.error e) ∧
    (input.unalignedDS = none → input.unalignedGSS = none →
      compute input sampler
        = Except.error
            "UnboundLocalError: local variable sampled_indices referenced before assignment") := by
  obtain ⟨b, j, idxs, rest, hr⟩ :
      ∃ (b : Bool) (j : ℕ) (idxs : List ℕ) (rest : List (Bool × ℕ × List ℕ)),
        rangesOf input = (b, j, j :: idxs) :: rest := by
    cases h2 : t2IndexOf input with
    | some j =>
      obtain ⟨idxs, rest, hr⟩ := rangesOf_head_back h2
      exact ⟨true, j, idxs, rest, hr⟩
    | none =>
      cases h1 : t1IndexOf input with
      | none =>
        rcases hanchor with h | h
        · exact absurd h1 h
        · exact absurd h2 h
      | some j =>
        obtain ⟨idxs, hr⟩ := rangesOf_head_forward h2 h1
        exact ⟨false, j, idxs, [], hr⟩
  constructor
  · obtain ⟨e, he⟩ := stepIteration_loader_error input sampler b j (initState input) hload hn
    exact ⟨e, compute_error_of_first hr he⟩
  · intro hds0 hgss0
    have hds2 : dsAlignStep input b (input.transportMaps.getD j default) = Except.ok none := by
      simp [dsAlignStep, hds0]
    have hgss2 : gssAlignStep input b (input.transportMaps.getD j default) = Except.ok none := by
      simp [gssAlignStep, hgss0]
    exact compute_error_of_first hr (stepIteration_anchor_unbound hds2 hgss2 hload hn)

/-- Witness for C10 at a concrete loader input with a backward anchor and no
auxiliary tables. -/
theorem sampling_loader_never_completes_witness :
    (∃ e, compute input10a emptySampler = Except.error e) ∧
    (input10a.unalignedDS = none → input10a.unalignedGSS = none →
      compute input10a emptySampler
        = Except.error
            "UnboundLocalError: local variable sampled_indices referenced before assignment") :=
  sampling_loader_never_completes input10a emptySampler rfl (Or.inr (by decide)) (by decide)

/-- C10 (counterexample to the claim as stated): with a sampling loader, a
forward-only anchor and a gene-set table, the very first alignment fails with
an AttributeError (the loader-built map has col_meta None), so the failure is
not the unbound-variable error at the per-cell-set sampling step that the claim
asserts for every such call; the call still never completes. -/
theorem sampling_loader_attribute_error :
    compute input10c emptySampler
      = Except.error "AttributeError: NoneType object has no attribute align" := rfl

@[simp] lemma pure_ok {α : Type} (a : α) : (pure a : Except String α) = Except.ok a := rfl

@[simp] lemma selectRows_none {α : Type} (rows : List α) :
    selectRows rows none = Except.ok rows := rfl

lemma selectRows_ok {α : Type} (rows : List α) :
    ∀ idxs : List ℕ, (∀ i ∈ idxs, i < rows.length) →
      ∃ rs, selectRows rows (some idxs) = Except.ok rs := by
  intro idxs
  induction idxs with
  | nil => exact fun _ => ⟨[], rfl⟩
  | cons i idxs ih =>
    intro h
    obtain ⟨rs, hrs⟩ := ih fun k hk => h k (List.mem_cons_of_mem i hk)
    have hi : i < rows.length := h i (List.mem_cons_self i idxs)
    have hg : rows.get? i = some (rows.get ⟨i, hi⟩) := List.get?_eq_get hi
    have hrs2 : idxs.mapM (fun k => match rows.get? k with
        | some r => Except.ok r
        | none => Except.error "IndexError") = Except.ok rs := hrs
    refine ⟨rows.get ⟨i, hi⟩ :: rs, ?_⟩
    show (i :: idxs).mapM _ = _
    simp only [List.mapM_cons, hg, ok_bind, pure_ok]
    show (selectRows rows (some idxs) >>= fun l => Except.ok (rows.get ⟨i, hi⟩ :: l)) = _
    rw [hrs, ok_bind]

/-- C9 (counterexample to the claim as stated): on the section 8 scenario shape
(anchor time 1 is t2 of the first map and t1 of the second, one surviving cell
set) but with no auxiliary table supplied, the run completes, both walks are
performed (pvecs at times 0 and 2), yet no trace record at all is produced at
any timepoint - do_sampling emits records only per auxiliary column, so the
claimed per-timepoint trace records and the anchor-marker record do not exist. -/
theorem scenario_without_aux_has_no_traces :
    compute input9c emptySampler
      = Except.ok { traces := [],
                    pvecs := [{ v := [1, 0], t := 0 }, { v := [1, 0], t := 2 }] } := by
  simp [compute, input9c, initState, rangesOf, t1IndexOf, t2IndexOf, lastIdxWhere, map01,
    map12, csA, emptySampler, stepIteration, dsAlignStep, gssAlignStep, anchorInitStep,
    perSetBody, initCellSets, anchorTraces, cellIdsInSet, membershipVec, filterCellSets,
    propagateStep, rawStep, matVec, vecMat, dotQ, numCols, doSampling, selectRows,
    List.range_succ]

/-- C9 (amended): on the section 8 scenario with a one-column gene-set table
supplied, whatever values the random draws of lines 260-265 return (any sampler
whose indices are in range), the run completes, both directions are walked
(pvecs at times 0 and 2, in that order), and exactly three trace records exist:
the anchor record first, carrying time 1, the fixed anchor marker color and the
anchor set member values taken directly from the table (no weighted draw), then
one record for time 0 with the backward color and one for time 2 with the
forward color, whose values are the rows drawn by the sampler. -/
theorem scenario_middle_anchor (sampler : List ℚ → List ℕ)
    (hs : ∀ v : List ℚ, ∀ i ∈ sampler v, i < v.length) :
    ∃ y0 y2, compute input9g sampler = Except.ok
      { traces := [{ name := 1, ttype := "violin", fillcolor := anchorColor, y := [some 4] },
                   { name := 0, ttype := "violin", fillcolor := backColor, y := y0 },
                   { name := 2, ttype := "violin", fillcolor := forwardColor, y := y2 }],
        pvecs := [{ v := [1, 0], t := 0 }, { v := [1, 0], t := 2 }] } := by
  obtain ⟨r0, hr0⟩ := selectRows_ok [[some (3 : ℚ)], [none]] (sampler [1, 0])
    (fun i hi => by simpa using hs [1, 0] i hi)
  obtain ⟨r2, hr2⟩ := selectRows_ok [[none], [some (5 : ℚ)]] (sampler [1, 0])
    (fun i hi => by simpa using hs [1, 0] i hi)
  refine ⟨r0.map (fun r => (r.get? 0).join), r2.map (fun r => (r.get? 0).join), ?_⟩
  simp [compute, input9g, input9c, initState, rangesOf, t1IndexOf, t2IndexOf, lastIdxWhere,
    map01, map12, csA, gssB, stepIteration, dsAlignStep, gssAlignStep, anchorInitStep,
    perSetBody, initCellSets, anchorTraces, cellIdsInSet, membershipVec, filterCellSets,
    propagateStep, rawStep, matVec, vecMat, dotQ, numCols, doSampling, alignGSS,
    List.range_succ, hr0, hr2]

/-- Witness for C9 (amended) at the empty sampler. -/
theorem scenario_middle_anchor_witness :
    ∃ y0 y2, compute input9g emptySampler = Except.ok
      { traces := [{ name := 1, ttype := "violin", fillcolor := anchorColor, y := [some 4] },
                   { name := 0, ttype := "violin", fillcolor := backColor, y := y0 },
                   { name := 2, ttype := "violin", fillcolor := forwardColor, y := y2 }],
        pvecs := [{ v := [1, 0], t := 0 }, { v := [1, 0], t := 2 }] } :=
  scenario_middle_anchor emptySampler (by intro v i hi; simp [emptySampler] at hi)

/-! Entropy development for C6 and C7. -/

lemma list_mem_le_one {v : List ℝ} (hv : ∀ x ∈ v, 0 ≤ x) (hsum : v.sum = 1) :
    ∀ x ∈ v, x ≤ 1 := by
  intro x hx
  calc x ≤ v.sum := List.single_le_sum hv x hx
  _ = 1 := hsum

lemma list_length_pos_of_sum_one {v : List ℝ} (hsum : v.sum = 1) : 0 < v.length := by
  cases v with
  | nil => simp at hsum
  | cons x l => simp

lemma shannonEntropy_nonneg {v : List ℝ} (hv : ∀ x ∈ v, 0 ≤ x) (hsum : v.sum = 1) :
    0 ≤ shannonEntropy v := by
  apply List.sum_nonneg
  intro x hx
  simp only [List.mem_map] at hx
  obtain ⟨y, hy, rfl⟩ := hx
  exact Real.negMulLog_nonneg (hv y hy) (list_mem_le_one hv hsum y hy)

lemma list_sum_eq_zero_iff {l : List ℝ} (h : ∀ x ∈ l, 0 ≤ x) :
    l.sum = 0 ↔ ∀ x ∈ l, x = 0 := by
  constructor
  · intro hs x hx
    have h1 : x ≤ (0 : ℝ) := hs ▸ List.single_le_sum h x hx
    have h2 := h x hx
    linarith
  · exact List.sum_eq_zero

lemma negMulLog_eq_zero_iff_of_nonneg {x : ℝ} (hx : 0 ≤ x) :
    Real.negMulLog x = 0 ↔ x = 0 ∨ x = 1 := by
  constructor
  · intro h
    have h2 : -x * Real.log x = 0 := by simpa [Real.negMulLog] using h
    rcases mul_eq_zero.mp h2 with h3 | h3
    · exact Or.inl (by linarith [neg_eq_zero.mp h3])
    · rcases Real.log_eq_zero.mp h3 with h4 | h4 | h4
      · exact Or.inl h4
      · exact Or.inr h4
      · exact absurd h4 (by intro he; rw [he] at hx; linarith)
  · rintro (rfl | rfl) <;> simp

/-- The Shannon entropy is zero exactly on one-hot vectors (over non-negative
normalized inputs). -/
lemma shannonEntropy_eq_zero_iff {v : List ℝ} (hv : ∀ x ∈ v, 0 ≤ x) (hsum : v.sum = 1) :
    shannonEntropy v = 0 ↔
      ∃ l1 l2, v = l1 ++ 1 :: l2 ∧ (∀ x ∈ l1, x = 0) ∧ (∀ x ∈ l2, x = 0) := by
  constructor
  · intro h
    have hterm : ∀ x ∈ v, Real.negMulLog x = 0 := by
      intro x hx
      have hz := (list_sum_eq_zero_iff (l := v.map Real.negMulLog) ?_).mp h
      · exact hz _ (List.mem_map_of_mem Real.negMulLog hx)
      · intro y hy
        simp only [List.mem_map] at hy
        obtain ⟨z, hz2, rfl⟩ := hy
        exact Real.negMulLog_nonneg (hv z hz2) (list_mem_le_one hv hsum z hz2)
    have hne : ∃ x ∈ v, x ≠ (0 : ℝ) := by
      by_contra hc
      push_neg at hc
      rw [(list_sum_eq_zero_iff hv).mpr hc] at hsum
      norm_num at hsum
    obtain ⟨x, hx, hxne⟩ := hne
    have hx1 : x = 1 := by
      rcases (negMulLog_eq_zero_iff_of_nonneg (hv x hx)).mp (hterm x hx) with h0 | h1
      · exact absurd h0 hxne
      · exact h1
    subst hx1
    obtain ⟨l1, l2, hsplit⟩ := List.append_of_mem hx
    refine ⟨l1, l2, hsplit, ?_, ?_⟩
    · have hsum2 : l1.sum + (1 + l2.sum) = 1 := by
        rw [hsplit] at hsum
        simpa using hsum
      have hl1 : ∀ x ∈ l1, (0 : ℝ) ≤ x := fun x hx2 =>
        hv x (by rw [hsplit]; exact List.mem_append_left _ hx2)
      have hl2 : ∀ x ∈ l2, (0 : ℝ) ≤ x := fun x hx2 =>
        hv x (by rw [hsplit]; exact List.mem_append_right _ (List.mem_cons_of_mem _ hx2))
      have hz1 : l1.sum = 0 := by
        have := List.sum_nonneg hl2
        have := List.sum_nonneg hl1
        linarith
      exact (list_sum_eq_zero_iff hl1).mp hz1
    · have hsum2 : l1.sum + (1 + l2.sum) = 1 := by
        rw [hsplit] at hsum
        simpa using hsum
      have hl1 : ∀ x ∈ l1, (0 : ℝ) ≤ x := fun x hx2 =>
        hv x (by rw [hsplit]; exact List.mem_append_left _ hx2)
      have hl2 : ∀ x ∈ l2, (0 : ℝ) ≤ x := fun x hx2 =>
        hv x (by rw [hsplit]; exact List.mem_append_right _ (List.mem_cons_of_mem _ hx2))
      have hz2 : l2.sum = 0 := by
        have := List.sum_nonneg hl2
        have := List.sum_nonneg hl1
        linarith
      exact (list_sum_eq_zero_iff hl2).mp hz2
  · rintro ⟨l1, l2, rfl, h1, h2⟩
    apply List.sum_eq_zero
    intro x hx
    simp only [List.map_append, List.map_cons, List.mem_append, List.mem_cons] at hx
    rcases hx with hx | hx | hx
    · simp only [List.mem_map] at hx
      obtain ⟨y, hy, rfl⟩ := hx
      rw [h1 y hy]
      simp
    · rw [hx]
      simp
    · simp only [List.mem_map] at hx
      obtain ⟨y, hy, rfl⟩ := hx
      rw [h2 y hy]
      simp

lemma negMulLog_le_affine {n : ℕ} (hn : 0 < n) {x : ℝ} (hx : 0 ≤ x) :
    Real.negMulLog x ≤ x * Real.log n + (1 / n - x) := by
  have hnR : (0 : ℝ) < n := by exact_mod_cast hn
  rcases eq_or_lt_of_le hx with h0 | hx0
  · rw [← h0]
    simp only [Real.negMulLog_zero, zero_mul, zero_add, sub_zero]
    positivity
  · have hnx : (0 : ℝ) < n * x := by positivity
    have hlog : Real.log (1 / ((n : ℝ) * x)) ≤ 1 / ((n : ℝ) * x) - 1 :=
      Real.log_le_sub_one_of_pos (by positivity)
    have h1 : Real.log (1 / ((n : ℝ) * x)) = -(Real.log n + Real.log x) := by
      rw [one_div, Real.log_inv, Real.log_mul hnR.ne' hx0.ne']
    have h2 : x * Real.log (1 / ((n : ℝ) * x)) ≤ x * (1 / ((n : ℝ) * x) - 1) :=
      mul_le_mul_of_nonneg_left hlog hx
    have h3 : x * (1 / ((n : ℝ) * x) - 1) = 1 / n - x := by
      field_simp
      ring
    have h4 : Real.negMulLog x = x * Real.log (1 / ((n : ℝ) * x)) + x * Real.log n := by
      rw [h1, Real.negMulLog]
      ring
    linarith [h2, h3 ▸ h2]

lemma negMulLog_lt_affine {n : ℕ} (hn : 0 < n) {x : ℝ} (hx : 0 ≤ x)
    (hne : x ≠ 1 / n) :
    Real.negMulLog x < x * Real.log n + (1 / n - x) := by
  have hnR : (0 : ℝ) < n := by exact_mod_cast hn
  rcases eq_or_lt_of_le hx with h0 | hx0
  · rw [← h0]
    simp only [Real.negMulLog_zero, zero_mul, zero_add, sub_zero]
    positivity
  · have hnx : (0 : ℝ) < n * x := by positivity
    have hnx1 : 1 / ((n : ℝ) * x) ≠ 1 := by
      intro h
      apply hne
      have : (n : ℝ) * x = 1 := by
        field_simp at h
        linarith
      field_simp
      linarith
    have hlog : Real.log (1 / ((n : ℝ) * x)) < 1 / ((n : ℝ) * x) - 1 :=
      Real.log_lt_sub_one_of_pos (by positivity) hnx1
    have h1 : Real.log (1 / ((n : ℝ) * x)) = -(Real.log n + Real.log x) := by
      rw [one_div, Real.log_inv, Real.log_mul hnR.ne' hx0.ne']
    have h2 : x * Real.log (1 / ((n : ℝ) * x)) < x * (1 / ((n : ℝ) * x) - 1) :=
      (mul_lt_mul_left hx0).mpr hlog
    have h3 : x * (1 / ((n : ℝ) * x) - 1) = 1 / n - x := by
      field_simp
      ring
    have h4 : Real.negMulLog x = x * Real.log (1 / ((n : ℝ) * x)) + x * Real.log n := by
      rw [h1, Real.negMulLog]
      ring
    linarith [h2, h3 ▸ h2]

lemma sum_map_affine (v : List ℝ) (a b : ℝ) :
    (v.map (fun x => x * a + (b - x))).sum = v.sum * a + ((v.length : ℝ) * b - v.sum) := by
  induction v with
  | nil => simp
  | cons x v ih =>
    simp only [List.map_cons, List.sum_cons, List.length_cons, ih]
    push_cast
    ring

lemma shannonEntropy_le_log {v : List ℝ} (hv : ∀ x ∈ v, 0 ≤ x) (hsum : v.sum = 1) :
    shannonEntropy v ≤ Real.log v.length := by
  have hn : 0 < v.length := list_length_pos_of_sum_one hsum
  have hnR : (0 : ℝ) < v.length := by exact_mod_cast hn
  have hle : shannonEntropy v
      ≤ (v.map (fun x => x * Real.log v.length + (1 / v.length - x))).sum :=
    List.sum_le_sum (fun x hx => negMulLog_le_affine hn (hv x hx))
  rw [sum_map_affine, hsum] at hle
  calc shannonEntropy v ≤ 1 * Real.log v.length + ((v.length : ℝ) * (1 / v.length) - 1) := hle
  _ = Real.log v.length := by
      field_simp

lemma shannonEntropy_eq_log_iff {v : List ℝ} (hv : ∀ x ∈ v, 0 ≤ x) (hsum : v.sum = 1) :
    shannonEntropy v = Real.log v.length ↔ ∀ x ∈ v, x = 1 / v.length := by
  have hn : 0 < v.length := list_length_pos_of_sum_one hsum
  have hnR : (0 : ℝ) < v.length := by exact_mod_cast hn
  constructor
  · intro h
    by_contra hc
    push_neg at hc
    obtain ⟨x0, hx0, hne⟩ := hc
    have hlt : shannonEntropy v
        < (v.map (fun x => x * Real.log v.length + (1 / v.length - x))).sum :=
      List.sum_lt_sum _ _ (fun x hx => negMulLog_le_affine hn (hv x hx))
        ⟨x0, hx0, negMulLog_lt_affine hn (hv x0 hx0) hne⟩
    rw [sum_map_affine, hsum] at hlt
    have : shannonEntropy v < Real.log v.length := by
      have heq : 1 * Real.log (v.length : ℝ) + ((v.length : ℝ) * (1 / v.length) - 1)
          = Real.log v.length := by field_simp
      linarith [heq ▸ hlt]
    linarith [h ▸ this]
  · intro hu
    have hmap : v.map Real.negMulLog
        = v.map (fun _ => Real.negMulLog (1 / (v.length : ℝ))) :=
      List.map_congr_left (fun x hx => by rw [hu x hx])
    have hval : Real.negMulLog (1 / (v.length : ℝ))
        = (1 / (v.length : ℝ)) * Real.log v.length := by
      rw [Real.negMulLog, one_div, Real.log_inv]
      ring
    calc shannonEntropy v = (v.map (fun _ => Real.negMulLog (1 / (v.length : ℝ)))).sum := by
          rw [shannonEntropy, hmap]
    _ = (v.length : ℝ) * ((1 / (v.length : ℝ)) * Real.log v.length) := by
          rw [List.map_const', List.sum_replicate, hval, nsmul_eq_mul]
    _ = Real.log v.length := by
          field_simp

/-- C6: for every non-negative normalized probability vector v of length n, the
computed perplexity exp(ShannonEntropy(v)) lies in [1, n]; it equals n exactly
when v is uniform and equals 1 exactly when v is one-hot. -/
theorem exp_entropy_bounds (v : List ℝ) (hv : ∀ x ∈ v, 0 ≤ x) (hsum : v.sum = 1) :
    1 ≤ expEntropy v ∧ expEntropy v ≤ v.length ∧
    (expEntropy v = v.length ↔ ∀ x ∈ v, x = 1 / v.length) ∧
    (expEntropy v = 1 ↔
      ∃ l1 l2, v = l1 ++ 1 :: l2 ∧ (∀ x ∈ l1, x = 0) ∧ (∀ x ∈ l2, x = 0)) := by
  have hn : 0 < v.length := list_length_pos_of_sum_one hsum
  have hnR : (0 : ℝ) < v.length := by exact_mod_cast hn
  have hH0 : 0 ≤ shannonEntropy v := shannonEntropy_nonneg hv hsum
  have hHlog : shannonEntropy v ≤ Real.log v.length := shannonEntropy_le_log hv hsum
  refine ⟨?_, ?_, ?_, ?_⟩
  · rw [show (1 : ℝ) = Real.exp 0 from Real.exp_zero.symm]
    exact Real.exp_le_exp.mpr hH0
  · calc expEntropy v ≤ Real.exp (Real.log v.length) := Real.exp_le_exp.mpr hHlog
    _ = v.length := Real.exp_log hnR
  · constructor
    · intro h
      apply (shannonEntropy_eq_log_iff hv hsum).mp
      have h2 := congrArg Real.log h
      rwa [expEntropy, Real.log_exp] at h2
    · intro hu
      rw [expEntropy, (shannonEntropy_eq_log_iff hv hsum).mpr hu, Real.exp_log hnR]
  · have hiff : expEntropy v = 1 ↔ shannonEntropy v = 0 := by
      constructor
      · intro h
        exact Real.exp_injective (by rw [expEntropy] at h; rw [h, Real.exp_zero])
      · intro h
        rw [expEntropy, h, Real.exp_zero]
    rw [hiff]
    exact shannonEntropy_eq_zero_iff hv hsum

/-- Witness for C6 at the uniform pair [1/2, 1/2]. -/
theorem exp_entropy_bounds_witness :
    1 ≤ expEntropy [1 / 2, 1 / 2] ∧ expEntropy [1 / 2, 1 / 2] ≤ ([(1 : ℝ) / 2, 1 / 2]).length ∧
    (expEntropy [1 / 2, 1 / 2] = ([(1 : ℝ) / 2, 1 / 2]).length ↔
      ∀ x ∈ [(1 : ℝ) / 2, 1 / 2], x = 1 / ([(1 : ℝ) / 2, 1 / 2]).length) ∧
    (expEntropy [1 / 2, 1 / 2] = 1 ↔
      ∃ l1 l2, [(1 : ℝ) / 2, 1 / 2] = l1 ++ 1 :: l2 ∧ (∀ x ∈ l1, x = 0) ∧ (∀ x ∈ l2, x = 0)) :=
  exp_entropy_bounds [1 / 2, 1 / 2] (by norm_num) (by norm_num)

lemma chooseIdx_lt (v : List ℚ) : v ≠ [] → ∀ r : ℚ, chooseIdx v r < v.length := by
  induction v with
  | nil => intro h; exact absurd rfl h
  | cons q rest ih =>
    intro _ r
    cases rest with
    | nil => simp [chooseIdx]
    | cons q2 rest2 =>
      by_cases hr : r < q
      · simp [chooseIdx, hr]
      · simp only [chooseIdx, if_neg hr, List.length_cons]
        have h2 := ih (by simp) (r - q)
        simp only [List.length_cons] at h2
        omega

lemma toReal_sum (v : List ℚ) : (toReal v).sum = ((v.sum : ℚ) : ℝ) := by
  induction v with
  | nil => simp [toReal]
  | cons x v ih =>
    show ((x : ℝ) :: toReal v).sum = ((x + v.sum : ℚ) : ℝ)
    rw [List.sum_cons, ih]
    push_cast
    ring

lemma toReal_nonneg {v : List ℚ} (hv : ∀ x ∈ v, 0 ≤ x) : ∀ y ∈ toReal v, 0 ≤ y := by
  intro y hy
  rw [show toReal v = v.map Rat.cast from rfl, List.mem_map] at hy
  obtain ⟨x, hx, rfl⟩ := hy
  exact_mod_cast hv x hx

lemma scipyEntropy_of_normalized {v : List ℝ} (hsum : v.sum = 1) :
    scipyEntropy v = shannonEntropy v := by
  rw [scipyEntropy, hsum]
  simp [shannonEntropy]

/-- C7: the sampling step of lines 260-265 draws exactly
k = ceil(exp(ShannonEntropy(v))) indices - the raw ceiling, no cap below n is
applied - and every drawn index lies in 0..n-1; k never exceeds n. -/
theorem sample_step_spec (v : List ℚ) (rands : ℕ → ℚ)
    (hv : ∀ x ∈ v, 0 ≤ x) (hsum : v.sum = 1) :
    (sampleStep v rands).length = sampleCount v ∧
    sampleCount v = ⌈Real.exp (shannonEntropy (toReal v))⌉₊ ∧
    sampleCount v ≤ v.length ∧
    (∀ i ∈ sampleStep v rands, i < v.length) := by
  have hvne : v ≠ [] := by
    intro h
    rw [h] at hsum
    simp at hsum
  have hsumR : (toReal v).sum = 1 := by
    rw [toReal_sum, hsum]
    norm_num
  have hsc : scipyEntropy (toReal v) = shannonEntropy (toReal v) :=
    scipyEntropy_of_normalized hsumR
  have hlen : (toReal v).length = v.length := by
    show (v.map Rat.cast).length = v.length
    exact List.length_map _ _
  refine ⟨?_, ?_, ?_, ?_⟩
  · simp [sampleStep]
  · rw [sampleCount, hsc]
  · rw [sampleCount, hsc]
    apply Nat.ceil_le.mpr
    calc Real.exp (shannonEntropy (toReal v))
        ≤ Real.exp (Real.log (toReal v).length) :=
          Real.exp_le_exp.mpr (shannonEntropy_le_log (toReal_nonneg hv) hsumR)
    _ = ((toReal v).length : ℝ) := Real.exp_log (by
          have : 0 < (toReal v).length := list_length_pos_of_sum_one hsumR
          exact_mod_cast this)
    _ = (v.length : ℝ) := by rw [hlen]
  · intro i hi
    simp only [sampleStep, List.mem_map, List.mem_range] at hi
    obtain ⟨j, _, rfl⟩ := hi
    exact chooseIdx_lt v hvne _

/-- Witness for C7 at the one-hot vector [1]. -/
theorem sample_step_spec_witness :
    (sampleStep [1] (fun _ => 0)).length = sampleCount [1] ∧
    sampleCount [1] = ⌈Real.exp (shannonEntropy (toReal [1]))⌉₊ ∧
    sampleCount [1] ≤ ([(1 : ℚ)]).length ∧
    (∀ i ∈ sampleStep [1] (fun _ => 0), i < ([(1 : ℚ)]).length) :=
  sample_step_spec [1] (fun _ => 0) (by norm_num) (by norm_num)

end Wot
